import Mathlib

/-!
# chat-site: request handlers over the users/messages store

A shallow embedding of `src/db.js` (the schema created by `initDB`) and of
`src/server.js` (the `auth` middleware and the six route handlers).

* The SQLite database is a `Store`: the rows of `users` and `messages` in
  rowid order, plus the two AUTOINCREMENT counters of `sqlite_sequence`.
* A request body field is a `JsValue`, so that missing and non-string fields
  can be given to the handlers.
* A handler returns a `Result`: what happened to the request (`Outcome`) and
  the store afterwards. An exception that no `try`/`catch` of the handler
  intercepts is the outcome `Outcome.uncaught`.
* The third-party primitives (`String.prototype.toLowerCase`, bcrypt,
  jsonwebtoken, SQLite's text-to-number coercion) are the fields of `Lib`;
  the general theorems hold for an arbitrary `Lib`, the evaluations use `testLib`.
-/

namespace ChatSite

/-! ## JavaScript values of a JSON body -/

/-- A field of `req.body`. `undefined` is a missing field. `composite` is an
array or an object; the handlers observe such a value only through its string
conversion `String(v)`, which the constructor carries. Numbers are the integral
ones. -/
inductive JsValue where
  | undefined
  | null
  | bool (b : Bool)
  | num (n : Int)
  | str (s : String)
  | composite (text : String)
  deriving DecidableEq, Repr

/-- JavaScript truthiness, as tested by `!v` and `v || w`. -/
def JsValue.truthy : JsValue → Bool
  | .undefined => false
  | .null => false
  | .bool b => b
  | .num n => decide (n ≠ 0)
  | .str s => decide (s ≠ "")
  | .composite _ => true

/-- The conversion `String(v)`, applied by `RegExp.prototype.test` to its argument. -/
def JsValue.toJsString : JsValue → String
  | .undefined => "undefined"
  | .null => "null"
  | .bool true => "true"
  | .bool false => "false"
  | .num n => toString n
  | .str s => s
  | .composite text => text

/-! ## Third-party primitives -/

/-- Payload of a session token: `{ id, username, role }`. -/
structure Claims where
  id : Nat
  username : String
  role : String
  deriving DecidableEq, Repr

/-- The library functions the handlers call. `bcryptHash data rounds salt` is
`bcrypt.hash(data, rounds)` on a string, with the salt it drew; `bcryptCompare data hash`
is `bcrypt.compare` on two strings. `jwtSign payload expiresIn clock` is
`jwt.sign(payload, JWT_SECRET, { expiresIn })` with `expiresIn` in seconds, issued at
time `clock`; `jwtVerify token clock` is `jwt.verify(token, JWT_SECRET)` at time `clock`,
`none` when it throws. `JWT_SECRET` is taken to be configured, and a token that
verifies to carry a payload of the shape the login route signs. `rowidOfText t` is the
row id that SQLite finds equal to the text `t` when it compares `t` with an INTEGER
column, if there is one. Row ids are unbounded naturals. -/
structure Lib where
  toLowerCase : String → String
  bcryptHash : String → Nat → String → String
  bcryptCompare : String → String → Bool
  jwtSign : Claims → Nat → Nat → String
  jwtVerify : String → Nat → Option Claims
  rowidOfText : String → Option Nat

/-! ## The store (`src/db.js`) -/

/-- A row of `users`. `email` is nullable; `role` has the default `user`. -/
structure User where
  id : Nat
  username : String
  email : Option String
  password : String
  role : String
  deriving DecidableEq, Repr

/-- A row of `messages`. `created_at` is the clock reading at insertion. -/
structure Message where
  id : Nat
  user_id : Nat
  text : String
  created_at : Nat
  deriving DecidableEq, Repr

/-- The database: both tables and their AUTOINCREMENT counters. -/
structure Store where
  users : List User
  messages : List Message
  usersSeq : Nat
  messagesSeq : Nat
  deriving DecidableEq, Repr

/-- The database `initDB` creates when `chat.db` does not exist yet. -/
def initDB : Store :=
  { users := [], messages := [], usersSeq := 0, messagesSeq := 0 }

/-- AUTOINCREMENT: one more than the largest row id that was ever in the table. -/
def nextRowid (ids : List Nat) (seq : Nat) : Nat :=
  max seq (ids.foldr max 0) + 1

/-- The constraints the schema puts on the tables: `id` is a primary key of each
table and `username` is UNIQUE. -/
def Store.WF (s : Store) : Prop :=
  (s.users.map User.id).Nodup ∧ (s.users.map User.username).Nodup ∧
    (s.messages.map Message.id).Nodup

instance (s : Store) : Decidable s.WF :=
  inferInstanceAs (Decidable (_ ∧ _ ∧ _))

/-- Statement `INSERT INTO users (username, email, password) VALUES (?, ?, ?)`;
`none` is the UNIQUE constraint failure on `username`. -/
def insertUser (s : Store) (username : String) (email : Option String)
    (password : String) : Option Store :=
  if s.users.any (fun u => decide (u.username = username)) then none
  else
    let id := nextRowid (s.users.map User.id) s.usersSeq
    some { s with
      users := s.users ++ [{ id := id, username := username, email := email,
                             password := password, role := "user" }],
      usersSeq := id }

/-- Statement `UPDATE users SET role='admin' WHERE email=?`. -/
def setAdminByEmail (s : Store) (email : String) : Store :=
  { s with users := s.users.map (fun u =>
      if u.email = some email then { u with role := "admin" } else u) }

/-- Statement `SELECT * FROM users WHERE username=?` through `db.get`: the first row. -/
def getUserByUsername (s : Store) (username : String) : Option User :=
  s.users.find? (fun u => decide (u.username = username))

/-- Statement `UPDATE users SET username=? WHERE id=?`; `none` is the UNIQUE
constraint failure: the row exists and another row holds the name already. -/
def updateUsername (s : Store) (username : String) (id : Nat) : Option Store :=
  if s.users.any (fun u => decide (u.id = id)) &&
      s.users.any (fun v => decide (v.id ≠ id) && decide (v.username = username)) then none
  else
    some { s with users := s.users.map (fun u =>
      if u.id = id then { u with username := username } else u) }

/-- Statement `INSERT INTO messages (user_id, text) VALUES (?, ?)`; foreign keys
are not enforced, so it cannot fail. -/
def insertMessage (s : Store) (user_id : Nat) (text : String) (clock : Nat) : Store :=
  let id := nextRowid (s.messages.map Message.id) s.messagesSeq
  { s with
    messages := s.messages ++ [{ id := id, user_id := user_id, text := text,
                                 created_at := clock }],
    messagesSeq := id }

/-- Statement `DELETE FROM users WHERE id=?` with a text parameter. -/
def deleteUserRow (L : Lib) (s : Store) (target : String) : Store :=
  { s with users := s.users.filter (fun u => decide (L.rowidOfText target ≠ some u.id)) }

/-- A row of the chat listing: `{ id, username, text, created_at }`. -/
structure ChatEntry where
  id : Nat
  username : String
  text : String
  created_at : Nat
  deriving DecidableEq, Repr

/-- The row the join yields for message `m` and its author `u`. -/
def chatEntry (m : Message) (u : User) : ChatEntry :=
  { id := m.id, username := u.username, text := m.text, created_at := m.created_at }

/-- Rows of `messages JOIN users ON users.id = messages.user_id`. -/
def joinRows (s : Store) : List ChatEntry :=
  s.messages.flatMap (fun m =>
    (s.users.filter (fun u => decide (u.id = m.user_id))).map (chatEntry m))

/-- Clause `ORDER BY messages.id DESC`. -/
def orderByIdDesc (rows : List ChatEntry) : List ChatEntry :=
  rows.insertionSort (fun a b => b.id ≤ a.id)

instance : IsTotal ChatEntry (fun a b => b.id ≤ a.id) :=
  ⟨fun a b => Nat.le_total b.id a.id⟩

instance : IsTrans ChatEntry (fun a b => b.id ≤ a.id) :=
  ⟨fun _ _ _ hab hbc => Nat.le_trans hbc hab⟩

/-- The query of `GET /api/chat`: join, `ORDER BY messages.id DESC LIMIT 50`. -/
def selectLatest (s : Store) : List ChatEntry :=
  (orderByIdDesc (joinRows s)).take 50

/-! ## Responses -/

/-- JSON body of a response. -/
inductive Body where
  | message (text : String)
  | error (text : String)
  | token (t : String)
  | rows (entries : List ChatEntry)
  deriving DecidableEq, Repr

/-- What `res.status(..).json(..)` sends; `res.json` alone has status 200. -/
structure Response where
  status : Nat
  body : Body
  deriving DecidableEq, Repr

/-- How a handler ends: it sent a response, or an exception left it uncaught. -/
inductive Outcome where
  | responded (r : Response)
  | uncaught
  deriving DecidableEq, Repr

/-- Outcome of a handler and the store it leaves. -/
structure Result where
  outcome : Outcome
  store : Store
  deriving DecidableEq, Repr

/-- Shorthand for `res.status(status).json({ error: text })`. -/
def fail (status : Nat) (text : String) (s : Store) : Result :=
  { outcome := .responded { status := status, body := .error text }, store := s }

/-- Shorthand for `res.json({ message: text })`. -/
def done (text : String) (s : Store) : Result :=
  { outcome := .responded { status := 200, body := .message text }, store := s }

/-! ## String operations of the handlers -/

/-- Pieces of `chars.split(" ")`, as lists of characters. -/
def splitSpace : List Char → List (List Char)
  | [] => [[]]
  | c :: cs =>
    if c = ' ' then [] :: splitSpace cs
    else
      match splitSpace cs with
      | [] => [[c]]
      | piece :: pieces => (c :: piece) :: pieces

/-- Expression `header.split(" ")[1]`; `none` is `undefined`. -/
def bearerToken (header : String) : Option String :=
  ((splitSpace header.data)[1]?).map String.mk

/-- White space and line terminators of ECMAScript, the characters `trim` strips. -/
def isJsWhiteSpace (c : Char) : Bool :=
  let n := c.toNat
  n = 0x09 || n = 0x0A || n = 0x0B || n = 0x0C || n = 0x0D || n = 0x20 || n = 0xA0 ||
    n = 0x1680 || (0x2000 ≤ n && n ≤ 0x200A) || n = 0x2028 || n = 0x2029 || n = 0x202F ||
    n = 0x205F || n = 0x3000 || n = 0xFEFF

/-- Method `String.prototype.trim`. -/
def jsTrim (s : String) : String :=
  String.mk ((s.data.dropWhile isJsWhiteSpace).reverse.dropWhile isJsWhiteSpace).reverse

/-- Character class `[a-zA-Z0-9_.]`. -/
def isUsernameChar (c : Char) : Bool :=
  c.isAlphanum || c = '_' || c = '.'

/-- Test of the pattern `/^[a-zA-Z0-9_.]{3,20}$/` on a string. -/
def usernamePattern (s : String) : Bool :=
  s.data.all isUsernameChar && decide (3 ≤ s.data.length) && decide (s.data.length ≤ 20)

/-- The admin detection of `POST /api/register`: the two allow-listed addresses. -/
def isAdminEmail (email : Option String) : Bool :=
  decide (email = some "bvpstudios012@gmail.com") ||
    decide (email = some "enchantedverze@gmail.com")

/-- Expression `email || null`: an absent or empty email is bound as NULL. -/
def emailOrNull (email : Option String) : Option String :=
  match email with
  | some e => if e = "" then none else some e
  | none => none

/-! ## The handlers (`src/server.js`) -/

/-- Middleware `auth`: the decoded claims, or the 401 response it sends. -/
def auth (L : Lib) (clock : Nat) (authorization : Option String) : Except Response Claims :=
  match authorization with
  | none => .error { status := 401, body := .error "Missing token" }
  | some header =>
    if header = "" then .error { status := 401, body := .error "Missing token" }
    else
      match bearerToken header with
      | none => .error { status := 401, body := .error "Invalid token" }
      | some token =>
        match L.jwtVerify token clock with
        | none => .error { status := 401, body := .error "Invalid token" }
        | some decoded => .ok decoded

/-- Body of `POST /api/register`. The email is modelled at its declared type: a
string, or `none` when the field is absent or `null`. -/
structure RegisterBody where
  username : JsValue
  password : JsValue
  email : Option String
  deriving DecidableEq, Repr

/-- Handler `POST /api/register`; `salt` is the salt bcrypt draws. Every exception
of the `try` block ends in the same 400 response. -/
def register (L : Lib) (salt : String) (body : RegisterBody) (s : Store) : Result :=
  if !body.username.truthy || !body.password.truthy then
    fail 400 "Username and password required" s
  else
    match body.password, body.username with
    | .str password, .str username =>
      let hashed := L.bcryptHash password 10 salt
      match insertUser s (L.toLowerCase username) (emailOrNull body.email) hashed with
      | none => fail 400 "Username or email already exists" s
      | some s1 =>
        match body.email with
        | some email =>
          if isAdminEmail (some email) then
            done "Account created successfully" (setAdminByEmail s1 email)
          else done "Account created successfully" s1
        | none => done "Account created successfully" s1
    | _, _ => fail 400 "Username or email already exists" s

/-- Body of `POST /api/login`. -/
structure LoginBody where
  username : JsValue
  password : JsValue
  deriving DecidableEq, Repr

/-- Handler `POST /api/login`. It has no `try`: `username.toLowerCase()` on a value
that is not a string, and `bcrypt.compare` on a password that is not one, throw. -/
def login (L : Lib) (clock : Nat) (body : LoginBody) (s : Store) : Result :=
  match body.username with
  | .str username =>
    match getUserByUsername s (L.toLowerCase username) with
    | none => fail 400 "User not found" s
    | some user =>
      match body.password with
      | .str password =>
        if L.bcryptCompare password user.password then
          { outcome := .responded
              { status := 200,
                body := .token (L.jwtSign
                  { id := user.id, username := user.username, role := user.role }
                  (2 * 60 * 60) clock) },
            store := s }
        else fail 400 "Invalid password" s
      | _ => { outcome := .uncaught, store := s }
  | _ => { outcome := .uncaught, store := s }

/-- Handler `POST /api/change-username` behind `auth`. The pattern is tested on
`String(username)`; the `try` block catches the failed update and the
`toLowerCase` of a value that is not a string alike. -/
def changeUsername (L : Lib) (clock : Nat) (authorization : Option String)
    (username : JsValue) (s : Store) : Result :=
  match auth L clock authorization with
  | .error r => { outcome := .responded r, store := s }
  | .ok user =>
    if !usernamePattern username.toJsString then fail 400 "Invalid username" s
    else
      match username with
      | .str name =>
        match updateUsername s (L.toLowerCase name) user.id with
        | none => fail 400 "Username taken" s
        | some s1 => done "Username updated" s1
      | _ => fail 400 "Username taken" s

/-- Handler `POST /api/chat` behind `auth`. It has no `try`: `text?.trim()` is
`undefined` for a missing or `null` text and throws for any other value that is
not a string. -/
def postMessage (L : Lib) (clock : Nat) (authorization : Option String)
    (text : JsValue) (s : Store) : Result :=
  match auth L clock authorization with
  | .error r => { outcome := .responded r, store := s }
  | .ok user =>
    match text with
    | .undefined => fail 400 "Empty message" s
    | .null => fail 400 "Empty message" s
    | .str t =>
      if jsTrim t = "" then fail 400 "Empty message" s
      else done "Message sent" (insertMessage s user.id (jsTrim t) clock)
    | _ => { outcome := .uncaught, store := s }

/-- Handler `GET /api/chat`: the selected rows, reversed. -/
def listMessages (s : Store) : Result :=
  { outcome := .responded { status := 200, body := .rows (selectLatest s).reverse },
    store := s }

/-- Handler `DELETE /api/users/:id` behind `auth`; `target` is `req.params.id`. -/
def deleteUser (L : Lib) (clock : Nat) (authorization : Option String)
    (target : String) (s : Store) : Result :=
  match auth L clock authorization with
  | .error r => { outcome := .responded r, store := s }
  | .ok user =>
    if user.role ≠ "admin" then fail 403 "Not allowed" s
    else done "User deleted" (deleteUserRow L s target)

/-! ## Runs of the server -/

/-- A request to one of the six routes, with what the environment contributes to
its handling (the clock, the salt). -/
inductive Request where
  | register (salt : String) (body : RegisterBody)
  | login (clock : Nat) (body : LoginBody)
  | changeUsername (clock : Nat) (authorization : Option String) (username : JsValue)
  | postMessage (clock : Nat) (authorization : Option String) (text : JsValue)
  | listMessages
  | deleteUser (clock : Nat) (authorization : Option String) (target : String)

/-- Dispatch of a request to its handler. -/
def handle (L : Lib) (r : Request) (s : Store) : Result :=
  match r with
  | .register salt body => register L salt body s
  | .login clock body => login L clock body s
  | .changeUsername clock authorization username =>
    changeUsername L clock authorization username s
  | .postMessage clock authorization text => postMessage L clock authorization text s
  | .listMessages => listMessages s
  | .deleteUser clock authorization target => deleteUser L clock authorization target s

/-- The store after a sequence of requests, served one after the other. -/
def run (L : Lib) (requests : List Request) (s : Store) : Store :=
  requests.foldl (fun st r => (handle L r st).store) s

/-- Stores the server can be in: the fresh database and what requests make of it. -/
inductive Reachable (L : Lib) : Store → Prop where
  | init : Reachable L initDB
  | step (r : Request) {s : Store} : Reachable L s → Reachable L (handle L r s).store

/-! ## A fixture for evaluating the handlers -/

/-- ASCII lower-casing; it agrees with `toLowerCase` on ASCII strings. -/
def asciiLower (s : String) : String :=
  String.mk (s.data.map Char.toLower)

/-- Value of a string of decimal digits. -/
def decimalValue : List Char → Option Nat
  | [] => none
  | cs => cs.foldl (fun acc c =>
      match acc with
      | some n => if c.isDigit then some (10 * n + (c.toNat - 48)) else none
      | none => none) (some 0)

/-- Stand-ins for the libraries: the hash keeps the password readable, and two
tokens verify, one of the administrator with id 1 and one of the user with id 2. -/
def testLib : Lib where
  toLowerCase := asciiLower
  bcryptHash := fun data _ _ => "hash:" ++ data
  bcryptCompare := fun data hash => decide (hash = "hash:" ++ data)
  jwtSign := fun payload _ _ => "token-of-" ++ payload.username
  jwtVerify := fun token _ =>
    if token = "admin.token" then some { id := 1, username := "root", role := "admin" }
    else if token = "alice.token" then some { id := 2, username := "alice", role := "user" }
    else none
  rowidOfText := fun t => decimalValue t.data

/-- A store for evaluating the handlers: the administrator `root` (id 1), the user
`alice` (id 2) and one message of hers. -/
def sampleStore : Store :=
  { users := [{ id := 1, username := "root", email := some "bvpstudios012@gmail.com",
                password := "hash:pw", role := "admin" },
              { id := 2, username := "alice", email := none, password := "hash:pw",
                role := "user" }],
    messages := [{ id := 1, user_id := 2, text := "hello", created_at := 3 }],
    usersSeq := 2, messagesSeq := 1 }

end ChatSite

/-! ## Lemmas on the store operations -/

namespace ChatSite

theorem le_foldr_max (ids : List Nat) (i : Nat) (h : i ∈ ids) : i ≤ ids.foldr max 0 := by
  induction ids with
  | nil => simp at h
  | cons a as ih =>
    simp only [List.foldr_cons]
    rcases List.mem_cons.1 h with rfl | h
    · exact le_max_left _ _
    · exact le_trans (ih h) (le_max_right _ _)

theorem lt_nextRowid (ids : List Nat) (seq i : Nat) (h : i ∈ ids) : i < nextRowid ids seq := by
  have := le_foldr_max ids i h
  unfold nextRowid
  omega

theorem insertUser_eq_none (s : Store) (n : String) (e : Option String) (p : String)
    (h : ∃ x ∈ s.users, x.username = n) : insertUser s n e p = none := by
  unfold insertUser
  rw [if_pos]
  simpa using h

theorem insertUser_eq_some (s : Store) (n : String) (e : Option String) (p : String)
    (h : ¬ ∃ x ∈ s.users, x.username = n) :
    insertUser s n e p = some { s with
      users := s.users ++ [{ id := nextRowid (s.users.map User.id) s.usersSeq, username := n,
                             email := e, password := p, role := "user" }],
      usersSeq := nextRowid (s.users.map User.id) s.usersSeq } := by
  unfold insertUser
  rw [if_neg]
  simpa using h

/-- What a registration with a fresh name does: it answers with the confirmation and
appends one row; `f` is the role update that follows the insertion, which leaves
every other column alone. -/
theorem register_fresh (L : Lib) (salt u p : String) (email : Option String) (s : Store)
    (hu : u ≠ "") (hp : p ≠ "") (hfresh : ¬ ∃ x ∈ s.users, x.username = L.toLowerCase u) :
    ∃ f : User → User,
      (∀ v, (f v).id = v.id ∧ (f v).username = v.username ∧ (f v).email = v.email ∧
        (f v).password = v.password) ∧
      register L salt { username := .str u, password := .str p, email := email } s =
        done "Account created successfully"
          { s with
            users := (s.users ++ [({ id := nextRowid (s.users.map User.id) s.usersSeq,
                                     username := L.toLowerCase u, email := emailOrNull email,
                                     password := L.bcryptHash p 10 salt,
                                     role := "user" } : User)]).map f,
            usersSeq := nextRowid (s.users.map User.id) s.usersSeq } := by
  have hins := insertUser_eq_some s (L.toLowerCase u) (emailOrNull email)
    (L.bcryptHash p 10 salt) hfresh
  cases email with
  | none =>
    refine ⟨id, fun v => ⟨rfl, rfl, rfl, rfl⟩, ?_⟩
    simp [register, JsValue.truthy, hu, hp, hins]
  | some e =>
    by_cases hadm : isAdminEmail (some e) = true
    · refine ⟨fun v => if v.email = some e then { v with role := "admin" } else v, ?_, ?_⟩
      · intro v
        by_cases hv : v.email = some e <;> simp [hv]
      · simp [register, JsValue.truthy, hu, hp, hins, hadm, setAdminByEmail]
    · refine ⟨id, fun v => ⟨rfl, rfl, rfl, rfl⟩, ?_⟩
      simp [register, JsValue.truthy, hu, hp, hins, hadm]

theorem register_taken (L : Lib) (salt u p : String) (email : Option String) (s : Store)
    (hu : u ≠ "") (hp : p ≠ "") (htaken : ∃ x ∈ s.users, x.username = L.toLowerCase u) :
    register L salt { username := .str u, password := .str p, email := email } s =
      fail 400 "Username or email already exists" s := by
  have hins := insertUser_eq_none s (L.toLowerCase u) (emailOrNull email)
    (L.bcryptHash p 10 salt) htaken
  simp [register, JsValue.truthy, hu, hp, hins]

theorem auth_ok_iff (L : Lib) (clock : Nat) (authorization : Option String) (decoded : Claims) :
    auth L clock authorization = .ok decoded ↔
      ∃ header token, authorization = some header ∧ bearerToken header = some token ∧
        L.jwtVerify token clock = some decoded := by
  unfold auth
  cases authorization with
  | none => simp
  | some header =>
    by_cases hh : header = ""
    · subst hh
      simp [bearerToken, splitSpace]
    · simp only [hh, if_false]
      cases hb : bearerToken header with
      | none => simp [hb]
      | some token =>
        cases hv : L.jwtVerify token clock with
        | none => simp [hb, hv]
        | some d => simp [hb, hv]

theorem find_username_of_mem (users : List User) (x : User)
    (hnodup : (users.map User.username).Nodup) (hx : x ∈ users) :
    users.find? (fun u => decide (u.username = x.username)) = some x := by
  induction users with
  | nil => simp at hx
  | cons a as ih =>
    simp only [List.map_cons, List.nodup_cons] at hnodup
    rcases List.mem_cons.1 hx with rfl | hmem
    · simp
    · have hne : a.username ≠ x.username := by
        intro heq
        exact hnodup.1 (heq ▸ List.mem_map_of_mem User.username hmem)
      simp only [List.find?_cons, hne, decide_False]
      exact ih hnodup.2 hmem

theorem getUserByUsername_eq_some (s : Store) (n : String) (x : User)
    (h : getUserByUsername s n = some x) : x ∈ s.users ∧ x.username = n := by
  unfold getUserByUsername at h
  refine ⟨List.mem_of_find?_eq_some h, ?_⟩
  simpa using List.find?_some h

theorem getUserByUsername_eq_none (s : Store) (n : String)
    (h : getUserByUsername s n = none) : ¬ ∃ x ∈ s.users, x.username = n := by
  unfold getUserByUsername at h
  simpa using h

/-! ## Lemmas on the chat listing -/

theorem mem_joinRows (s : Store) (e : ChatEntry) :
    e ∈ joinRows s ↔ ∃ m ∈ s.messages, ∃ u ∈ s.users, u.id = m.user_id ∧ e = chatEntry m u := by
  simp only [joinRows, List.mem_flatMap, List.mem_map, List.mem_filter, decide_eq_true_eq]
  constructor
  · rintro ⟨m, hm, u, ⟨hu, hid⟩, rfl⟩
    exact ⟨m, hm, u, hu, hid, rfl⟩
  · rintro ⟨m, hm, u, hu, hid, rfl⟩
    exact ⟨m, hm, u, ⟨hu, hid⟩, rfl⟩

theorem joinRows_ids_distinct (s : Store) (hwf : s.WF) :
    (joinRows s).Pairwise (fun a b => a.id ≠ b.id) := by
  obtain ⟨hu, -, hm⟩ := hwf
  rw [List.Nodup, List.pairwise_map] at hu hm
  unfold joinRows
  rw [List.pairwise_flatMap]
  constructor
  · intro m _
    rw [List.pairwise_map]
    have hsub : (s.users.filter (fun u => decide (u.id = m.user_id))).Pairwise
        (fun a b => a.id ≠ b.id) := hu.sublist (List.filter_sublist _)
    refine hsub.imp_of_mem ?_
    intro a b ha hb hab
    simp only [List.mem_filter, decide_eq_true_eq] at ha hb
    exact absurd (ha.2.trans hb.2.symm) hab
  · refine hm.imp ?_
    intro m1 m2 hne x hx y hy
    simp only [List.mem_map] at hx hy
    obtain ⟨_, _, rfl⟩ := hx
    obtain ⟨_, _, rfl⟩ := hy
    exact hne

theorem orderByIdDesc_perm (rows : List ChatEntry) : (orderByIdDesc rows).Perm rows :=
  List.perm_insertionSort _ rows

theorem mem_orderByIdDesc (rows : List ChatEntry) (e : ChatEntry) :
    e ∈ orderByIdDesc rows ↔ e ∈ rows :=
  (orderByIdDesc_perm rows).mem_iff

theorem orderByIdDesc_sorted (rows : List ChatEntry) :
    (orderByIdDesc rows).Pairwise (fun a b => b.id ≤ a.id) :=
  List.sorted_insertionSort (fun a b : ChatEntry => b.id ≤ a.id) rows

theorem orderByIdDesc_strict (rows : List ChatEntry)
    (hd : rows.Pairwise (fun a b => a.id ≠ b.id)) :
    (orderByIdDesc rows).Pairwise (fun a b => b.id < a.id) := by
  have h1 := orderByIdDesc_sorted rows
  have h2 : (orderByIdDesc rows).Pairwise (fun a b => a.id ≠ b.id) :=
    ((orderByIdDesc_perm rows).pairwise_iff (fun h => Ne.symm h)).2 hd
  exact (h1.and h2).imp (fun h => lt_of_le_of_ne h.1 (Ne.symm h.2))

/-- The row that sorts first: a row whose id exceeds the id of every other row. -/
theorem orderByIdDesc_head (rows : List ChatEntry) (x : ChatEntry) (hx : x ∈ rows)
    (hmax : ∀ y ∈ rows, y ≠ x → y.id < x.id) : (orderByIdDesc rows).head? = some x := by
  have hs := orderByIdDesc_sorted rows
  have hxs : x ∈ orderByIdDesc rows := (mem_orderByIdDesc rows x).2 hx
  cases hl : orderByIdDesc rows with
  | nil => rw [hl] at hxs; simp at hxs
  | cons h t =>
    rw [hl] at hs hxs
    simp only [List.head?_cons, Option.some.injEq]
    by_contra hne
    have hh : h ∈ rows := (mem_orderByIdDesc rows h).1 (by rw [hl]; simp)
    have hlt := hmax h hh hne
    rcases List.mem_cons.1 hxs with heq | hmem
    · exact hne heq.symm
    · have := (List.pairwise_cons.1 hs).1 x hmem
      omega

theorem filter_id_eq_singleton (users : List User) (u : User)
    (hnodup : (users.map User.id).Nodup) (hu : u ∈ users) :
    users.filter (fun v => decide (v.id = u.id)) = [u] := by
  induction users with
  | nil => simp at hu
  | cons a as ih =>
    simp only [List.map_cons, List.nodup_cons] at hnodup
    have hrest : ∀ v ∈ as, v.id ≠ a.id := by
      intro v hv heq
      exact hnodup.1 (heq ▸ List.mem_map_of_mem User.id hv)
    rcases List.mem_cons.1 hu with rfl | hmem
    · have : as.filter (fun v => decide (v.id = u.id)) = [] := by
        simp only [List.filter_eq_nil_iff, decide_eq_true_eq]
        exact hrest
      simp [List.filter_cons, this]
    · have hne : a.id ≠ u.id := fun heq => hrest u hmem heq.symm
      simp only [List.filter_cons, hne, decide_False]
      exact ih hnodup.2 hmem

theorem joinRows_insertMessage (s : Store) (u : User) (text : String) (clock : Nat)
    (hwf : s.WF) (hu : u ∈ s.users) :
    joinRows (insertMessage s u.id text clock) =
      joinRows s ++ [{ id := nextRowid (s.messages.map Message.id) s.messagesSeq,
                       username := u.username, text := text, created_at := clock }] := by
  simp [joinRows, insertMessage, List.flatMap_append, filter_id_eq_singleton s.users u hwf.1 hu,
    chatEntry]

/-! ## Lemmas on roles and on renaming -/

theorem isAdminEmail_iff (email : Option String) :
    isAdminEmail email = true ↔
      (email = some "bvpstudios012@gmail.com" ∨ email = some "enchantedverze@gmail.com") := by
  simp [isAdminEmail]

theorem emailOrNull_of_admin (e : String) (h : isAdminEmail (some e) = true) :
    emailOrNull (some e) = some e := by
  have hne : e ≠ "" := by
    rintro rfl
    exact absurd h (by decide)
  simp [emailOrNull, hne]

theorem isAdminEmail_emailOrNull (email : Option String) :
    isAdminEmail (emailOrNull email) = isAdminEmail email := by
  cases email with
  | none => rfl
  | some e =>
    by_cases he : e = ""
    · subst he; decide
    · simp [emailOrNull, he]

/-- The users table after Register, whatever the body: unchanged, or one row with the
default role appended, followed by the role update when the email is allow-listed. -/
theorem register_users (L : Lib) (salt : String) (body : RegisterBody) (s : Store) :
    (register L salt body s).store.users = s.users ∨
    ∃ added : User, added.role = "user" ∧ added.email = emailOrNull body.email ∧
      (((register L salt body s).store.users = s.users ++ [added] ∧
          isAdminEmail body.email = false) ∨
        ∃ e, body.email = some e ∧ isAdminEmail (some e) = true ∧
          (register L salt body s).store.users =
            (s.users ++ [added]).map
              (fun u => if u.email = some e then { u with role := "admin" } else u)) := by
  obtain ⟨username, password, email⟩ := body
  by_cases hform : ∃ u p, username = .str u ∧ password = .str p ∧ u ≠ "" ∧ p ≠ ""
  · obtain ⟨u, p, rfl, rfl, hu, hp⟩ := hform
    by_cases htaken : ∃ x ∈ s.users, x.username = L.toLowerCase u
    · left
      rw [register_taken L salt u p email s hu hp htaken]
      rfl
    · right
      have hins := insertUser_eq_some s (L.toLowerCase u) (emailOrNull email)
        (L.bcryptHash p 10 salt) htaken
      refine ⟨{ id := nextRowid (s.users.map User.id) s.usersSeq, username := L.toLowerCase u,
                email := emailOrNull email, password := L.bcryptHash p 10 salt,
                role := "user" }, rfl, rfl, ?_⟩
      cases email with
      | none =>
        left
        simp [register, JsValue.truthy, hu, hp, hins, done, isAdminEmail]
      | some e =>
        by_cases hadm : isAdminEmail (some e) = true
        · right
          refine ⟨e, rfl, hadm, ?_⟩
          simp [register, JsValue.truthy, hu, hp, hins, hadm, done, setAdminByEmail]
        · left
          simp only [Bool.not_eq_true] at hadm
          simp [register, JsValue.truthy, hu, hp, hins, hadm, done]
  · left
    cases username <;> cases password <;>
      first
        | (simp [register, JsValue.truthy, fail]; done)
        | skip
    all_goals first
      | (simp only [register, fail]; split <;> rfl)
      | skip
    rename_i u p
    by_cases hu : u = ""
    · simp [register, JsValue.truthy, hu, fail]
    · by_cases hp : p = ""
      · simp [register, JsValue.truthy, hp, fail]
      · exact absurd ⟨u, p, rfl, rfl, hu, hp⟩ hform

theorem updateUsername_eq_some (s s1 : Store) (n : String) (id : Nat)
    (h : updateUsername s n id = some s1) :
    s1 = { s with users := s.users.map (fun u =>
      if u.id = id then { u with username := n } else u) } := by
  unfold updateUsername at h
  split at h
  · exact absurd h (by simp)
  · exact (Option.some.inj h).symm

/-- The two ways ChangeUsername ends: without touching the store and without the
confirmation, or with the confirmation after the token verified, the name matched
the pattern as a string, and the update statement ran. -/
theorem changeUsername_cases (L : Lib) (clock : Nat) (authorization : Option String)
    (username : JsValue) (s : Store) :
    ((changeUsername L clock authorization username s).store = s ∧
      (changeUsername L clock authorization username s).outcome ≠
        .responded { status := 200, body := .message "Username updated" }) ∨
    ∃ decoded name s1, auth L clock authorization = .ok decoded ∧ username = .str name ∧
      usernamePattern name = true ∧
      updateUsername s (L.toLowerCase name) decoded.id = some s1 ∧
      changeUsername L clock authorization username s = done "Username updated" s1 := by
  unfold changeUsername
  cases hauth : auth L clock authorization with
  | error r =>
    left
    refine ⟨rfl, ?_⟩
    unfold auth at hauth
    repeat' split at hauth
    all_goals first
      | (injection hauth with hr; subst hr; simp)
      | simp at hauth
  | ok decoded =>
    by_cases hpat : usernamePattern username.toJsString = true
    · cases username with
      | str name =>
        cases hupd : updateUsername s (L.toLowerCase name) decoded.id with
        | none => left; simp [hpat, hupd, fail]
        | some s1 =>
          right
          exact ⟨decoded, name, s1, rfl, rfl, hpat, hupd, by simp [hpat, hupd]⟩
      | _ => left; simp [hpat, fail]
    · left; simp [hpat, fail]

theorem changeUsername_success (L : Lib) (clock : Nat) (authorization : Option String)
    (username : JsValue) (s : Store)
    (h : (changeUsername L clock authorization username s).outcome =
      .responded { status := 200, body := .message "Username updated" }) :
    ∃ decoded name s1, auth L clock authorization = .ok decoded ∧ username = .str name ∧
      usernamePattern name = true ∧
      updateUsername s (L.toLowerCase name) decoded.id = some s1 ∧
      (changeUsername L clock authorization username s).store = s1 := by
  rcases changeUsername_cases L clock authorization username s with ⟨-, hne⟩ | hyes
  · exact absurd h hne
  · obtain ⟨decoded, name, s1, h1, h2, h3, h4, h5⟩ := hyes
    exact ⟨decoded, name, s1, h1, h2, h3, h4, by rw [h5]; rfl⟩

theorem changeUsername_users (L : Lib) (clock : Nat) (authorization : Option String)
    (username : JsValue) (s : Store) :
    ∀ u ∈ (changeUsername L clock authorization username s).store.users,
      ∃ v ∈ s.users, u.id = v.id ∧ u.email = v.email ∧ u.role = v.role := by
  rcases changeUsername_cases L clock authorization username s with ⟨hstore, -⟩ | hyes
  · rw [hstore]
    exact fun u hu => ⟨u, hu, rfl, rfl, rfl⟩
  · obtain ⟨decoded, name, s1, -, -, -, hupd, heq⟩ := hyes
    rw [heq, updateUsername_eq_some s s1 _ _ hupd]
    intro u hu
    simp only [done, List.mem_map] at hu
    obtain ⟨v, hv, rfl⟩ := hu
    refine ⟨v, hv, ?_⟩
    by_cases hid : v.id = decoded.id <;> simp [hid]

theorem postMessage_users (L : Lib) (clock : Nat) (authorization : Option String)
    (text : JsValue) (s : Store) :
    (postMessage L clock authorization text s).store.users = s.users := by
  unfold postMessage
  repeat' split
  all_goals rfl

theorem deleteUser_users (L : Lib) (clock : Nat) (authorization : Option String)
    (target : String) (s : Store) :
    ∀ u ∈ (deleteUser L clock authorization target s).store.users, u ∈ s.users := by
  unfold deleteUser
  repeat' split
  all_goals first
    | exact fun u hu => hu
    | exact fun u hu => List.mem_of_mem_filter hu

theorem login_store (L : Lib) (clock : Nat) (body : LoginBody) (s : Store) :
    (login L clock body s).store = s := by
  unfold login
  repeat' split
  all_goals rfl

theorem register_role_inv (L : Lib) (salt : String) (body : RegisterBody) (s : Store)
    (ih : ∀ u ∈ s.users, (u.role = "admin" ↔ isAdminEmail u.email = true)) :
    ∀ u ∈ (register L salt body s).store.users,
      (u.role = "admin" ↔ isAdminEmail u.email = true) := by
  rcases register_users L salt body s with hsame | ⟨added, hrole, hemail, hplain | hadmin⟩
  · rw [hsame]; exact ih
  · obtain ⟨husers, hnot⟩ := hplain
    rw [husers]
    intro u hu
    rcases List.mem_append.1 hu with h | h
    · exact ih u h
    · rw [List.mem_singleton.1 h, hrole, hemail, isAdminEmail_emailOrNull, hnot]
      simp
  · obtain ⟨e, hbody, hadm, husers⟩ := hadmin
    rw [husers]
    intro u hu
    simp only [List.mem_map] at hu
    obtain ⟨v, hv, rfl⟩ := hu
    by_cases hve : v.email = some e
    · simp [hve, hadm]
    · simp only [hve, if_false]
      rcases List.mem_append.1 hv with h | h
      · exact ih v h
      · exfalso
        apply hve
        rw [List.mem_singleton.1 h, hemail, hbody]
        exact emailOrNull_of_admin e hadm

/-- In every store the server can reach, the admins are the users with an allow-listed
email. -/
theorem reachable_role_inv (L : Lib) (s : Store) (h : Reachable L s) :
    ∀ u ∈ s.users, (u.role = "admin" ↔ isAdminEmail u.email = true) := by
  induction h with
  | init => intro u hu; simp [initDB] at hu
  | step r hs ih =>
    cases r with
    | register salt body => exact register_role_inv L salt body _ ih
    | login clock body =>
      show ∀ u ∈ (login L clock body _).store.users, _
      rw [login_store]
      exact ih
    | changeUsername clock authorization username =>
      intro u hu
      obtain ⟨v, hv, -, hemail, hrole⟩ := changeUsername_users L clock authorization username _ u hu
      rw [hemail, hrole]
      exact ih v hv
    | postMessage clock authorization text =>
      show ∀ u ∈ (postMessage L clock authorization text _).store.users, _
      rw [postMessage_users]
      exact ih
    | listMessages => exact ih
    | deleteUser clock authorization target =>
      intro u hu
      exact ih u (deleteUser_users L clock authorization target _ u hu)

theorem updateUsername_others (s s1 : Store) (n : String) (id : Nat)
    (h : updateUsername s n id = some s1) (hex : ∃ u ∈ s.users, u.id = id) :
    ∀ v ∈ s.users, v.id ≠ id → v.username ≠ n := by
  unfold updateUsername at h
  split at h
  · exact absurd h (by simp)
  · rename_i hcond
    intro v hv hne hname
    apply hcond
    simp only [Bool.and_eq_true, List.any_eq_true, decide_eq_true_eq]
    exact ⟨hex, v, hv, hne, hname⟩

/-- After the update statement, the lookup of the new name returns the renamed row. -/
theorem find_renamed (users : List User) (n : String) (id : Nat) (u : User)
    (hnodup : (users.map User.id).Nodup)
    (hother : ∀ v ∈ users, v.id ≠ id → v.username ≠ n)
    (hu : u ∈ users.map (fun v => if v.id = id then { v with username := n } else v))
    (hid : u.id = id) :
    (users.map (fun v => if v.id = id then { v with username := n } else v)).find?
        (fun x => decide (x.username = n)) = some u ∧ u.username = n := by
  induction users with
  | nil => simp at hu
  | cons a as ih =>
    simp only [List.map_cons, List.nodup_cons] at hnodup
    simp only [List.map_cons, List.mem_cons] at hu
    by_cases ha : a.id = id
    · have hrest : u ∉ as.map (fun v => if v.id = id then { v with username := n } else v) := by
        intro hmem
        simp only [List.mem_map] at hmem
        obtain ⟨v, hv, rfl⟩ := hmem
        have hvid : v.id = id := by
          by_cases hv2 : v.id = id
          · exact hv2
          · simp [hv2] at hid
        exact hnodup.1 (by rw [ha, ← hvid]; exact List.mem_map_of_mem User.id hv)
      rcases hu with rfl | hmem
      · simp [ha]
      · exact absurd hmem hrest
    · have hname : a.username ≠ n := hother a (List.mem_cons_self _ _) ha
      rcases hu with rfl | hmem
      · simp [ha] at hid
      · have := ih hnodup.2 (fun v hv => hother v (List.mem_cons_of_mem _ hv)) hmem
        simpa [ha, hname] using this

/-! ## Lemmas on trimming and on passwords that are not strings -/

/-- Stripping the characters that satisfy `p` from both ends: what is stripped is
made of such characters, and what remains neither starts nor ends with one. -/
theorem strip_both_ends (p : Char → Bool) (l : List Char) :
    ∃ pre post,
      l = pre ++ ((l.dropWhile p).reverse.dropWhile p).reverse ++ post ∧
      (∀ c ∈ pre, p c = true) ∧ (∀ c ∈ post, p c = true) ∧
      (∀ c, (((l.dropWhile p).reverse.dropWhile p).reverse).head? = some c → p c = false) ∧
      (∀ c, (((l.dropWhile p).reverse.dropWhile p).reverse).getLast? = some c →
        p c = false) := by
  have hsplit : (l.dropWhile p) =
      ((l.dropWhile p).reverse.dropWhile p).reverse ++
        ((l.dropWhile p).reverse.takeWhile p).reverse := by
    rw [← List.reverse_append, List.takeWhile_append_dropWhile, List.reverse_reverse]
  refine ⟨l.takeWhile p, ((l.dropWhile p).reverse.takeWhile p).reverse, ?_, ?_, ?_, ?_, ?_⟩
  · rw [List.append_assoc, ← hsplit, List.takeWhile_append_dropWhile]
  · intro c hc
    exact List.mem_takeWhile_imp hc
  · intro c hc
    exact List.mem_takeWhile_imp (List.mem_reverse.1 hc)
  · intro c hc
    have hhead : (l.dropWhile p).head? = some c := by
      rw [hsplit, List.head?_append, hc]; rfl
    have := List.head?_dropWhile_not p l
    rw [hhead] at this
    exact this
  · intro c hc
    rw [List.getLast?_reverse] at hc
    have := List.head?_dropWhile_not p (l.dropWhile p).reverse
    rw [hc] at this
    exact this

theorem jsTrim_spec (t : String) :
    ∃ pre post,
      t.data = pre ++ (jsTrim t).data ++ post ∧
      (∀ c ∈ pre, isJsWhiteSpace c = true) ∧ (∀ c ∈ post, isJsWhiteSpace c = true) ∧
      (∀ c, (jsTrim t).data.head? = some c → isJsWhiteSpace c = false) ∧
      (∀ c, (jsTrim t).data.getLast? = some c → isJsWhiteSpace c = false) :=
  strip_both_ends isJsWhiteSpace t.data

theorem jsTrim_ne_empty (t : String) (h : ∃ c ∈ t.data, isJsWhiteSpace c = false) :
    jsTrim t ≠ "" := by
  intro hempty
  obtain ⟨pre, post, hsplit, hpre, hpost, -, -⟩ := jsTrim_spec t
  obtain ⟨c, hc, hws⟩ := h
  rw [hempty] at hsplit
  rw [hsplit] at hc
  simp only [List.append_nil, List.mem_append] at hc
  rcases hc with hc | hc
  · rw [hpre c hc] at hws; exact absurd hws (by decide)
  · rw [hpost c hc] at hws; exact absurd hws (by decide)

theorem register_password_not_string (L : Lib) (salt u : String) (password : JsValue)
    (email : Option String) (s : Store) (hnot : ∀ p, password ≠ .str p) :
    register L salt { username := .str u, password := password, email := email } s =
        fail 400 "Username or email already exists" s ∨
      register L salt { username := .str u, password := password, email := email } s =
        fail 400 "Username and password required" s := by
  cases password with
  | str p => exact absurd rfl (hnot p)
  | undefined => right; simp [register, JsValue.truthy]
  | null => right; simp [register, JsValue.truthy]
  | bool b =>
    cases b
    · right; simp [register, JsValue.truthy]
    · by_cases hu : u = ""
      · right; simp [register, JsValue.truthy, hu]
      · left; simp [register, JsValue.truthy, hu]
  | num n =>
    by_cases hn : n = 0
    · right; simp [register, JsValue.truthy, hn]
    · by_cases hu : u = ""
      · right; simp [register, JsValue.truthy, hu]
      · left; simp [register, JsValue.truthy, hu, hn]
  | composite text =>
    by_cases hu : u = ""
    · right; simp [register, JsValue.truthy, hu]
    · left; simp [register, JsValue.truthy, hu]

/-! ## The claims -/

/-- Counterexample to C1: in the sample store no user is called `bob`, and Register of
`bob` with the password `5`, a number, is answered with the conflict error and adds
no user. -/
theorem register_fresh_name_rejected :
    (¬ ∃ x ∈ sampleStore.users, x.username = testLib.toLowerCase "bob") ∧
    (JsValue.num 5).truthy = true ∧
    register testLib "salt" { username := .str "bob", password := .num 5, email := none }
        sampleStore =
      fail 400 "Username or email already exists" sampleStore := by
  decide

/-- C1 as amended: for a non-empty string username `u` and a truthy password, Register
answers with the conflict error and leaves the store as it is when a stored username
equals `toLowerCase u` or the password is not a string; when the password is a string
and no stored username equals `toLowerCase u`, it answers with the confirmation and
the users table is the old rows (same ids, names, emails and hashes) followed by
exactly one new row, whose username is `toLowerCase u` and whose id no old row has. -/
theorem register_conflict_or_one_user_added (L : Lib) (salt u : String) (password : JsValue)
    (email : Option String) (s : Store) (hu : u ≠ "") (hp : password.truthy = true) :
    (((∃ x ∈ s.users, x.username = L.toLowerCase u) ∨ (∀ p, password ≠ .str p)) →
      (register L salt { username := .str u, password := password, email := email } s).outcome =
          .responded { status := 400, body := .error "Username or email already exists" } ∧
        (register L salt { username := .str u, password := password, email := email } s).store
          = s) ∧
    ((¬ ∃ x ∈ s.users, x.username = L.toLowerCase u) → (∃ p, password = .str p) →
      (register L salt { username := .str u, password := password, email := email } s).outcome =
          .responded { status := 200, body := .message "Account created successfully" } ∧
        ∃ old added,
          (register L salt { username := .str u, password := password, email := email }
              s).store.users
            = old ++ [added] ∧
          added.username = L.toLowerCase u ∧
          added.id ∉ s.users.map User.id ∧
          old.map User.id = s.users.map User.id ∧
          old.map User.username = s.users.map User.username ∧
          old.map User.email = s.users.map User.email ∧
          old.map User.password = s.users.map User.password) := by
  constructor
  · intro hcase
    by_cases hstr : ∃ p, password = .str p
    · obtain ⟨p, rfl⟩ := hstr
      have hpne : p ≠ "" := by simpa [JsValue.truthy] using hp
      rcases hcase with htaken | hnot
      · rw [register_taken L salt u p email s hu hpne htaken]
        exact ⟨rfl, rfl⟩
      · exact absurd rfl (hnot p)
    · have hnot : ∀ p, password ≠ .str p := fun p h => hstr ⟨p, h⟩
      rcases register_password_not_string L salt u password email s hnot with h | h
      · rw [h]; exact ⟨rfl, rfl⟩
      · exfalso
        have hreq : (register L salt
            { username := .str u, password := password, email := email } s).outcome ≠
            .responded { status := 400, body := .error "Username and password required" } := by
          cases password <;> simp_all [register, JsValue.truthy, fail]
        exact hreq (by rw [h]; rfl)
  · rintro hfresh ⟨p, rfl⟩
    have hpne : p ≠ "" := by simpa [JsValue.truthy] using hp
    obtain ⟨f, hf, heq⟩ := register_fresh L salt u p email s hu hpne hfresh
    rw [heq]
    refine ⟨rfl, s.users.map f,
      f { id := nextRowid (s.users.map User.id) s.usersSeq, username := L.toLowerCase u,
          email := emailOrNull email, password := L.bcryptHash p 10 salt, role := "user" },
      ?_, ?_, ?_, ?_, ?_, ?_, ?_⟩
    · simp [done]
    · exact (hf _).2.1
    · rw [(hf _).1]
      intro hmem
      exact absurd (lt_nextRowid _ s.usersSeq _ hmem) (lt_irrefl _)
    · simp [List.map_map, Function.comp_def, (hf _).1]
    · simp [List.map_map, Function.comp_def, (hf _).2.1]
    · simp [List.map_map, Function.comp_def, (hf _).2.2.1]
    · simp [List.map_map, Function.comp_def, (hf _).2.2.2]

/-- Witness of C1 as amended, in the sample store: `ALICE` is taken and is rejected with
the store unchanged; `Bob` is fresh and is accepted. -/
theorem register_conflict_or_one_user_added_witness :
    ("ALICE" ≠ "" ∧ "Bob" ≠ "" ∧ (JsValue.str "pw").truthy = true ∧
      (∃ x ∈ sampleStore.users, x.username = testLib.toLowerCase "ALICE") ∧
      ¬ ∃ x ∈ sampleStore.users, x.username = testLib.toLowerCase "Bob") ∧
    ((register testLib "salt" { username := .str "ALICE", password := .str "pw", email := none }
          sampleStore).outcome =
        .responded { status := 400, body := .error "Username or email already exists" } ∧
      (register testLib "salt" { username := .str "ALICE", password := .str "pw", email := none }
          sampleStore).store = sampleStore) ∧
    (register testLib "salt" { username := .str "Bob", password := .str "pw", email := none }
        sampleStore).outcome =
      .responded { status := 200, body := .message "Account created successfully" } :=
  ⟨⟨by decide, by decide, by decide, by decide, by decide⟩,
    (register_conflict_or_one_user_added testLib "salt" "ALICE" (.str "pw") none sampleStore
      (by decide) (by decide)).1 (Or.inl (by decide)),
    ((register_conflict_or_one_user_added testLib "salt" "Bob" (.str "pw") none sampleStore
      (by decide) (by decide)).2 (by decide) ⟨"pw", rfl⟩).1⟩

/-- C2: DeleteUser changes the store only when the request carries a token that
verifies with the role claim `admin`; a request whose token verifies with any other
role is answered 403 `Not allowed` and the store stays as it is, whatever the target. -/
theorem deleteUser_only_admin (L : Lib) (clock : Nat) (authorization : Option String)
    (target : String) (s : Store) :
    ((deleteUser L clock authorization target s).store ≠ s →
      ∃ header token decoded, authorization = some header ∧
        bearerToken header = some token ∧ L.jwtVerify token clock = some decoded ∧
        decoded.role = "admin") ∧
    (∀ header token decoded, authorization = some header →
      bearerToken header = some token → L.jwtVerify token clock = some decoded →
      decoded.role ≠ "admin" →
      (deleteUser L clock authorization target s).outcome =
          .responded { status := 403, body := .error "Not allowed" } ∧
        (deleteUser L clock authorization target s).store = s) := by
  constructor
  · intro hchg
    cases hauth : auth L clock authorization with
    | error r => simp [deleteUser, hauth] at hchg
    | ok decoded =>
      by_cases hrole : decoded.role = "admin"
      · obtain ⟨header, token, h1, h2, h3⟩ := (auth_ok_iff L clock authorization decoded).1 hauth
        exact ⟨header, token, decoded, h1, h2, h3, hrole⟩
      · simp [deleteUser, hauth, hrole, fail] at hchg
  · intro header token decoded h1 h2 h3 hrole
    have hauth : auth L clock authorization = .ok decoded :=
      (auth_ok_iff L clock authorization decoded).2 ⟨header, token, h1, h2, h3⟩
    simp [deleteUser, hauth, hrole, fail]

/-- Witness of C2: the token of the plain user `alice` cannot delete user 1. -/
theorem deleteUser_only_admin_witness :
    (bearerToken "Bearer alice.token" = some "alice.token" ∧
      testLib.jwtVerify "alice.token" 0 = some { id := 2, username := "alice", role := "user" } ∧
      "user" ≠ "admin") ∧
    (deleteUser testLib 0 (some "Bearer alice.token") "1" sampleStore).outcome =
        .responded { status := 403, body := .error "Not allowed" } ∧
    (deleteUser testLib 0 (some "Bearer alice.token") "1" sampleStore).store = sampleStore :=
  ⟨⟨by decide, by decide, by decide⟩,
    (deleteUser_only_admin testLib 0 (some "Bearer alice.token") "1" sampleStore).2
      "Bearer alice.token" "alice.token" { id := 2, username := "alice", role := "user" }
      rfl (by decide) (by decide) (by decide)⟩

/-- Login on string credentials. On a store with unique usernames, Login with a string
username `u` and a string password `p` returns a token exactly when a stored user has
the username `toLowerCase u` and a hash that `p` verifies against; the token is then
signed over that user's stored id, username and role with an expiry of 7200 seconds;
when there is no such user the answer is a 400 error without a token. Login leaves
the store as it is, whatever the body. -/
theorem login_token_iff_credentials (L : Lib) (clock : Nat) (u p : String) (s : Store)
    (hwf : s.WF) :
    ((∃ status t, (login L clock { username := .str u, password := .str p } s).outcome =
          .responded { status := status, body := .token t }) ↔
      ∃ x ∈ s.users, x.username = L.toLowerCase u ∧ L.bcryptCompare p x.password = true) ∧
    (∀ x ∈ s.users, x.username = L.toLowerCase u → L.bcryptCompare p x.password = true →
      (login L clock { username := .str u, password := .str p } s).outcome =
        .responded
          { status := 200,
            body := .token
              (L.jwtSign { id := x.id, username := x.username, role := x.role } 7200 clock) }) ∧
    ((¬ ∃ x ∈ s.users, x.username = L.toLowerCase u ∧ L.bcryptCompare p x.password = true) →
      ∃ text, (login L clock { username := .str u, password := .str p } s).outcome =
        .responded { status := 400, body := .error text }) ∧
    (∀ body, (login L clock body s).store = s) := by
  have hfound : ∀ x ∈ s.users, x.username = L.toLowerCase u →
      getUserByUsername s (L.toLowerCase u) = some x := by
    intro x hx hname
    rw [← hname]
    exact find_username_of_mem s.users x hwf.2.1 hx
  have hyes : ∀ x ∈ s.users, x.username = L.toLowerCase u → L.bcryptCompare p x.password = true →
      (login L clock { username := .str u, password := .str p } s).outcome =
        .responded
          { status := 200,
            body := .token
              (L.jwtSign { id := x.id, username := x.username, role := x.role } 7200 clock) } := by
    intro x hx hname hpw
    simp [login, hfound x hx hname, hpw]
  have hno : (¬ ∃ x ∈ s.users, x.username = L.toLowerCase u ∧
        L.bcryptCompare p x.password = true) →
      ∃ text, (login L clock { username := .str u, password := .str p } s).outcome =
        .responded { status := 400, body := .error text } := by
    intro hnone
    cases hget : getUserByUsername s (L.toLowerCase u) with
    | none => exact ⟨"User not found", by simp [login, hget, fail]⟩
    | some x =>
      obtain ⟨hx, hname⟩ := getUserByUsername_eq_some s _ x hget
      have hpw : L.bcryptCompare p x.password = false := by
        cases hc : L.bcryptCompare p x.password with
        | false => rfl
        | true => exact absurd ⟨x, hx, hname, hc⟩ hnone
      exact ⟨"Invalid password", by simp [login, hget, hpw, fail]⟩
  refine ⟨⟨?_, ?_⟩, hyes, hno, ?_⟩
  · rintro ⟨status, t, ht⟩
    by_contra hnone
    obtain ⟨text, htext⟩ := hno hnone
    rw [htext] at ht
    simp at ht
  · rintro ⟨x, hx, hname, hpw⟩
    exact ⟨200, _, hyes x hx hname hpw⟩
  · intro body
    unfold login
    repeat' split
    all_goals rfl

/-- Login on string credentials in the sample store: the name and password of `alice`
yield her token. -/
theorem login_token_iff_credentials_witness :
    sampleStore.WF ∧
    (login testLib 7 { username := .str "ALICE", password := .str "pw" } sampleStore).outcome =
      .responded
        { status := 200,
          body := .token
            (testLib.jwtSign { id := 2, username := "alice", role := "user" } 7200 7) } :=
  ⟨by decide,
    (login_token_iff_credentials testLib 7 "ALICE" "pw" sampleStore (by decide)).2.1
      { id := 2, username := "alice", email := none, password := "hash:pw", role := "user" }
      (by decide) (by decide) (by decide)⟩

/-- C5: evaluation of the code at the failing inputs. In the sample store `alice` is a
stored user; Login with her name and no password, or with the number `5` as password,
ends with an exception that nothing catches: no token and no error response. With her
name and her password as a string, the same store returns her token. -/
theorem login_password_not_string_uncaught :
    (∃ x ∈ sampleStore.users, x.username = testLib.toLowerCase "alice") ∧
    login testLib 7 { username := .str "alice", password := .undefined } sampleStore =
      { outcome := .uncaught, store := sampleStore } ∧
    login testLib 7 { username := .str "alice", password := .num 5 } sampleStore =
      { outcome := .uncaught, store := sampleStore } ∧
    login testLib 7 { username := .str "alice", password := .str "pw" } sampleStore =
      { outcome := .responded { status := 200, body := .token "token-of-alice" },
        store := sampleStore } := by
  decide

/-- C8: evaluation of the code at the failing input. On the fresh database, Register
with the username `J!` succeeds and stores the username `j!`, which the pattern
`/^[a-zA-Z0-9_.]{3,20}$/` of the change-username route rejects: it has two characters
and one of them is outside the class. -/
theorem register_stores_unvalidated_username :
    register testLib "salt" { username := .str "J!", password := .str "pw", email := none }
        initDB =
      done "Account created successfully"
        { users := [{ id := 1, username := "j!", email := none, password := "hash:pw",
                      role := "user" }],
          messages := [], usersSeq := 1, messagesSeq := 0 } ∧
    usernamePattern "j!" = false ∧
    Reachable testLib (register testLib "salt"
      { username := .str "J!", password := .str "pw", email := none } initDB).store :=
  ⟨by decide, by decide,
    Reachable.step
      (.register "salt" { username := .str "J!", password := .str "pw", email := none })
      Reachable.init⟩

/-- C9: evaluation of the code at the failing inputs. Login on a body without a
username ends with an exception that nothing catches, in every store and whatever
the password field; so does PostMessage, for an authenticated request whose text is
a number. -/
theorem login_and_postMessage_uncaught :
    (∀ (L : Lib) (clock : Nat) (password : JsValue) (s : Store),
      (login L clock { username := .undefined, password := password } s).outcome =
        .uncaught) ∧
    (∀ s : Store,
      (postMessage testLib 0 (some "Bearer alice.token") (.num 5) s).outcome = .uncaught) :=
  ⟨fun _ _ _ _ => rfl, fun _ => rfl⟩

/-- Counterexample to C10: `alice` holds the email `a@example.org`; Register of `bob`
with the same email is answered with the confirmation and both rows are stored. -/
theorem register_duplicate_email_not_rejected :
    register testLib "salt"
        { username := .str "bob", password := .str "pw", email := some "a@example.org" }
        (register testLib "salt"
          { username := .str "alice", password := .str "pw", email := some "a@example.org" }
          initDB).store =
      done "Account created successfully"
        { users := [{ id := 1, username := "alice", email := some "a@example.org",
                      password := "hash:pw", role := "user" },
                    { id := 2, username := "bob", email := some "a@example.org",
                      password := "hash:pw", role := "user" }],
          messages := [], usersSeq := 2, messagesSeq := 0 } := by
  decide

/-- C10 as amended: Register with a non-empty email that a stored user already has, a
non-empty string username `u` such that no stored username equals `toLowerCase u`, and
a non-empty string password succeeds; the users table is the old rows followed by one
new row, which carries that same email. -/
theorem register_duplicate_email_succeeds (L : Lib) (salt u p e : String) (s : Store)
    (hu : u ≠ "") (hp : p ≠ "") (he : e ≠ "")
    (hdup : ∃ x ∈ s.users, x.email = some e)
    (hfresh : ¬ ∃ x ∈ s.users, x.username = L.toLowerCase u) :
    (register L salt { username := .str u, password := .str p, email := some e } s).outcome =
        .responded { status := 200, body := .message "Account created successfully" } ∧
      ∃ old added,
        (register L salt { username := .str u, password := .str p, email := some e } s).store.users
          = old ++ [added] ∧
        added.username = L.toLowerCase u ∧ added.email = some e ∧
        old.map User.id = s.users.map User.id ∧
        old.map User.email = s.users.map User.email ∧
        ∃ x ∈ old, x.email = some e := by
  obtain ⟨f, hf, heq⟩ := register_fresh L salt u p (some e) s hu hp hfresh
  obtain ⟨x, hx, hxe⟩ := hdup
  rw [heq]
  refine ⟨rfl, s.users.map f,
    f { id := nextRowid (s.users.map User.id) s.usersSeq, username := L.toLowerCase u,
        email := emailOrNull (some e), password := L.bcryptHash p 10 salt, role := "user" },
    ?_, ?_, ?_, ?_, ?_, f x, List.mem_map_of_mem f hx, ?_⟩
  · simp [done]
  · exact (hf _).2.1
  · rw [(hf _).2.2.1]
    simp [emailOrNull, he]
  · simp [List.map_map, Function.comp_def, (hf _).1]
  · simp [List.map_map, Function.comp_def, (hf _).2.2.1]
  · rw [(hf _).2.2.1]
    exact hxe

/-- Witness of C10 as amended: `bob` registers with the email of `root`. -/
theorem register_duplicate_email_succeeds_witness :
    ("bob" ≠ "" ∧ "pw" ≠ "" ∧ "bvpstudios012@gmail.com" ≠ "" ∧
      (∃ x ∈ sampleStore.users, x.email = some "bvpstudios012@gmail.com") ∧
      ¬ ∃ x ∈ sampleStore.users, x.username = testLib.toLowerCase "bob") ∧
    (register testLib "salt"
        { username := .str "bob", password := .str "pw",
          email := some "bvpstudios012@gmail.com" } sampleStore).outcome =
      .responded { status := 200, body := .message "Account created successfully" } :=
  ⟨⟨by decide, by decide, by decide, by decide, by decide⟩,
    (register_duplicate_email_succeeds testLib "salt" "bob" "pw" "bvpstudios012@gmail.com"
      sampleStore (by decide) (by decide) (by decide) (by decide) (by decide)).1⟩

/-- C3: on a store that obeys the keys of the schema, ListMessages answers 200 with at
most 50 rows in strictly ascending id order; every row is a message joined with its
author; a message with an author that is not listed is older (smaller id) than every
listed row, and then exactly 50 rows are listed; an empty messages table gives the
empty list. The store stays as it is. -/
theorem listMessages_latest_fifty_ascending (s : Store) (hwf : s.WF) :
    ∃ rows,
      listMessages s =
        { outcome := .responded { status := 200, body := .rows rows }, store := s } ∧
      rows.length ≤ 50 ∧
      rows.Pairwise (fun a b => a.id < b.id) ∧
      (∀ e ∈ rows, ∃ m ∈ s.messages, ∃ u ∈ s.users, u.id = m.user_id ∧ e = chatEntry m u) ∧
      (∀ m ∈ s.messages, ∀ u ∈ s.users, u.id = m.user_id → chatEntry m u ∉ rows →
        rows.length = 50 ∧ ∀ x ∈ rows, m.id < x.id) ∧
      (s.messages = [] → rows = []) := by
  have hstrict := orderByIdDesc_strict (joinRows s) (joinRows_ids_distinct s hwf)
  refine ⟨(selectLatest s).reverse, rfl, ?_, ?_, ?_, ?_, ?_⟩
  · simp only [selectLatest, List.length_reverse, List.length_take]
    exact Nat.min_le_left _ _
  · rw [List.pairwise_reverse]
    exact hstrict.sublist (List.take_sublist _ _)
  · intro e he
    rw [List.mem_reverse] at he
    have hmem : e ∈ joinRows s :=
      (mem_orderByIdDesc _ e).1 (List.mem_of_mem_take he)
    exact (mem_joinRows s e).1 hmem
  · intro m hm u hu hid hnot
    rw [List.mem_reverse] at hnot
    have hmem : chatEntry m u ∈ orderByIdDesc (joinRows s) :=
      (mem_orderByIdDesc _ _).2 ((mem_joinRows s _).2 ⟨m, hm, u, hu, hid, rfl⟩)
    rw [← List.take_append_drop 50 (orderByIdDesc (joinRows s))] at hmem hstrict
    have hdrop : chatEntry m u ∈ (orderByIdDesc (joinRows s)).drop 50 := by
      rcases List.mem_append.1 hmem with h | h
      · exact absurd h hnot
      · exact h
    constructor
    · have hlen : 0 < ((orderByIdDesc (joinRows s)).drop 50).length :=
        List.length_pos_of_mem hdrop
      simp only [List.length_drop] at hlen
      simp only [selectLatest, List.length_reverse, List.length_take]
      omega
    · intro x hx
      rw [List.mem_reverse] at hx
      exact (List.pairwise_append.1 hstrict).2.2 x hx _ hdrop
  · intro hempty
    simp [selectLatest, orderByIdDesc, joinRows, hempty]

/-- Witness of C3: the listing of the sample store. -/
theorem listMessages_latest_fifty_ascending_witness :
    sampleStore.WF ∧
    ∃ rows,
      listMessages sampleStore =
        { outcome := .responded { status := 200, body := .rows rows }, store := sampleStore } ∧
      rows.length ≤ 50 ∧ rows.Pairwise (fun a b => a.id < b.id) :=
  ⟨by decide,
    match listMessages_latest_fifty_ascending sampleStore (by decide) with
    | ⟨rows, h1, h2, h3, _⟩ => ⟨rows, h1, h2, h3⟩⟩

/-- C4: on a store that obeys the keys of the schema, for a stored user `u`, a request
whose token verifies with the id of `u`, and a string text with a character that is
not white space, PostMessage answers `Message sent`, and ListMessages on the store it
leaves answers with a list whose last row has the stored username of `u` and the
trimmed text: a non-empty text that neither starts nor ends with white space and
that the posted text surrounds with white space only. -/
theorem postMessage_then_listed_last (L : Lib) (clock : Nat) (header token : String)
    (decoded : Claims) (t : String) (u : User) (s : Store) (hwf : s.WF) (hu : u ∈ s.users)
    (htoken : bearerToken header = some token)
    (hverify : L.jwtVerify token clock = some decoded) (hid : decoded.id = u.id)
    (ht : ∃ c ∈ t.data, isJsWhiteSpace c = false) :
    (postMessage L clock (some header) (.str t) s).outcome =
        .responded { status := 200, body := .message "Message sent" } ∧
      ∃ rows last,
        (listMessages (postMessage L clock (some header) (.str t) s).store).outcome =
          .responded { status := 200, body := .rows rows } ∧
        rows.getLast? = some last ∧ last.username = u.username ∧ last.text = jsTrim t ∧
        last.text ≠ "" ∧
        ∃ pre post,
          t.data = pre ++ last.text.data ++ post ∧
          (∀ c ∈ pre, isJsWhiteSpace c = true) ∧ (∀ c ∈ post, isJsWhiteSpace c = true) ∧
          (∀ c, last.text.data.head? = some c → isJsWhiteSpace c = false) ∧
          (∀ c, last.text.data.getLast? = some c → isJsWhiteSpace c = false) := by
  have hne : jsTrim t ≠ "" := jsTrim_ne_empty t ht
  have hauth : auth L clock (some header) = .ok decoded :=
    (auth_ok_iff L clock (some header) decoded).2 ⟨header, token, rfl, htoken, hverify⟩
  have hpost : postMessage L clock (some header) (.str t) s =
      done "Message sent" (insertMessage s u.id (jsTrim t) clock) := by
    simp [postMessage, hauth, hne, hid]
  rw [hpost]
  refine ⟨rfl, _,
    { id := nextRowid (s.messages.map Message.id) s.messagesSeq, username := u.username,
      text := jsTrim t, created_at := clock }, rfl, ?_, rfl, rfl, hne, jsTrim_spec t⟩
  · show (selectLatest (insertMessage s u.id (jsTrim t) clock)).reverse.getLast? = _
    rw [List.getLast?_reverse, selectLatest, List.head?_take, if_neg (by decide)]
    apply orderByIdDesc_head
    · rw [joinRows_insertMessage s u _ clock hwf hu]
      simp
    · intro y hy hne2
      rw [joinRows_insertMessage s u _ clock hwf hu] at hy
      rcases List.mem_append.1 hy with h | h
      · obtain ⟨m, hm, v, _, _, rfl⟩ := (mem_joinRows s y).1 h
        exact lt_nextRowid _ s.messagesSeq _ (List.mem_map_of_mem Message.id hm)
      · exact absurd (List.mem_singleton.1 h) hne2

/-- Witness of C4: `alice` posts `hi` padded with blanks and a line feed to the sample
store; the last listed row is hers and its text is `hi`. -/
theorem postMessage_then_listed_last_witness :
    (sampleStore.WF ∧ bearerToken "Bearer alice.token" = some "alice.token" ∧
      testLib.jwtVerify "alice.token" 9 = some { id := 2, username := "alice", role := "user" } ∧
      ∃ c ∈ "  hi \n".data, isJsWhiteSpace c = false) ∧
    (postMessage testLib 9 (some "Bearer alice.token") (.str "  hi \n") sampleStore).outcome =
        .responded { status := 200, body := .message "Message sent" } ∧
    ∃ rows last,
      (listMessages
          (postMessage testLib 9 (some "Bearer alice.token") (.str "  hi \n")
            sampleStore).store).outcome =
        .responded { status := 200, body := .rows rows } ∧
      rows.getLast? = some last ∧ last.username = "alice" ∧ last.text = "hi" :=
  ⟨⟨by decide, by decide, by decide, by decide⟩,
    match postMessage_then_listed_last testLib 9 "Bearer alice.token" "alice.token"
        { id := 2, username := "alice", role := "user" } "  hi \n"
        { id := 2, username := "alice", email := none, password := "hash:pw", role := "user" }
        sampleStore (by decide) (by decide) (by decide) (by decide) (by decide)
        (by decide) with
    | ⟨h1, rows, last, h2, h3, h4, h5, _⟩ =>
      ⟨h1, rows, last, h2, h3, h4, h5.trans (by decide)⟩⟩

/-- C7: in every store reachable from the fresh database through the six routes, a
user has the role `admin` exactly when the email of that user is one of the two
allow-listed addresses; and from such a store, a Register with an allow-listed email
(fresh username, non-empty string password) stores the new user with the role
`admin`. -/
theorem admin_role_iff_allowlisted_email (L : Lib) (s : Store) (h : Reachable L s) :
    (∀ u ∈ s.users,
      (u.role = "admin" ↔
        (u.email = some "bvpstudios012@gmail.com" ∨
          u.email = some "enchantedverze@gmail.com"))) ∧
    (∀ (salt name pw e : String),
      (e = "bvpstudios012@gmail.com" ∨ e = "enchantedverze@gmail.com") →
      name ≠ "" → pw ≠ "" → (¬ ∃ x ∈ s.users, x.username = L.toLowerCase name) →
      ∃ added ∈ (register L salt
          { username := .str name, password := .str pw, email := some e } s).store.users,
        added.username = L.toLowerCase name ∧ added.email = some e ∧
          added.role = "admin") := by
  constructor
  · intro u hu
    rw [← isAdminEmail_iff]
    exact reachable_role_inv L s h u hu
  · intro salt name pw e he hname hpw hfresh
    have hadm : isAdminEmail (some e) = true := by
      rw [isAdminEmail_iff]
      rcases he with rfl | rfl
      · exact Or.inl rfl
      · exact Or.inr rfl
    have hnext := reachable_role_inv L _
      (Reachable.step (.register salt
        { username := .str name, password := .str pw, email := some e }) h)
    obtain ⟨f, hf, heq⟩ := register_fresh L salt name pw (some e) s hname hpw hfresh
    obtain ⟨row, hrow⟩ : ∃ row : User, row =
        { id := nextRowid (s.users.map User.id) s.usersSeq, username := L.toLowerCase name,
          email := emailOrNull (some e), password := L.bcryptHash pw 10 salt, role := "user" } :=
      ⟨_, rfl⟩
    rw [← hrow] at heq
    have hmem : f row ∈ (register L salt
        { username := .str name, password := .str pw, email := some e } s).store.users := by
      rw [heq]
      simp [done]
    have hemail : (f row).email = some e := by
      rw [(hf _).2.2.1, hrow]
      exact emailOrNull_of_admin e hadm
    have husername : (f row).username = L.toLowerCase name := by
      rw [(hf _).2.1, hrow]
    refine ⟨f row, hmem, husername, hemail, ?_⟩
    apply (hnext _ hmem).2
    rw [hemail]
    exact hadm

/-- Witness of C7: after `Root` registered with an allow-listed address and `Alice`
without an email, the admins are the allow-listed users. -/
theorem admin_role_iff_allowlisted_email_witness :
    Reachable testLib
      (run testLib
        [.register "salt" { username := .str "Root", password := .str "pw",
                            email := some "bvpstudios012@gmail.com" },
         .register "salt" { username := .str "Alice", password := .str "pw", email := none }]
        initDB) ∧
    ∀ u ∈ (run testLib
        [.register "salt" { username := .str "Root", password := .str "pw",
                            email := some "bvpstudios012@gmail.com" },
         .register "salt" { username := .str "Alice", password := .str "pw", email := none }]
        initDB).users,
      (u.role = "admin" ↔
        (u.email = some "bvpstudios012@gmail.com" ∨
          u.email = some "enchantedverze@gmail.com")) :=
  ⟨Reachable.step
      (.register "salt" { username := .str "Alice", password := .str "pw", email := none })
      (Reachable.step
        (.register "salt" { username := .str "Root", password := .str "pw",
                            email := some "bvpstudios012@gmail.com" })
        Reachable.init),
    (admin_role_iff_allowlisted_email testLib _
      (Reachable.step
        (.register "salt" { username := .str "Alice", password := .str "pw", email := none })
        (Reachable.step
          (.register "salt" { username := .str "Root", password := .str "pw",
                              email := some "bvpstudios012@gmail.com" })
          Reachable.init))).1⟩

/-- Counterexample to C6. First run: `root` (admin) and `alice` (id 2) register, the
admin deletes user 2, and ChangeUsername with the still valid token of `alice` answers
`Username updated` although no stored user has id 2. Second run: `alice` renames
herself to `Alice`, which is answered `Username updated`, and Login with the old name
`alice` still returns her token. -/
theorem changeUsername_success_without_effect :
    ((changeUsername testLib 0 (some "Bearer alice.token") (.str "validname123")
        (run testLib
          [.register "salt" { username := .str "root", password := .str "pw",
                              email := some "bvpstudios012@gmail.com" },
           .register "salt" { username := .str "alice", password := .str "pw", email := none },
           .deleteUser 0 (some "Bearer admin.token") "2"] initDB)).outcome =
        .responded { status := 200, body := .message "Username updated" } ∧
      ¬ ∃ u ∈ (changeUsername testLib 0 (some "Bearer alice.token") (.str "validname123")
          (run testLib
            [.register "salt" { username := .str "root", password := .str "pw",
                                email := some "bvpstudios012@gmail.com" },
             .register "salt" { username := .str "alice", password := .str "pw", email := none },
             .deleteUser 0 (some "Bearer admin.token") "2"] initDB)).store.users,
        u.id = 2) ∧
    ((changeUsername testLib 0 (some "Bearer alice.token") (.str "Alice")
        (run testLib
          [.register "salt" { username := .str "root", password := .str "pw",
                              email := some "bvpstudios012@gmail.com" },
           .register "salt" { username := .str "alice", password := .str "pw", email := none }]
          initDB)).outcome =
        .responded { status := 200, body := .message "Username updated" } ∧
      (login testLib 0 { username := .str "alice", password := .str "pw" }
        (changeUsername testLib 0 (some "Bearer alice.token") (.str "Alice")
          (run testLib
            [.register "salt" { username := .str "root", password := .str "pw",
                                email := some "bvpstudios012@gmail.com" },
             .register "salt" { username := .str "alice", password := .str "pw", email := none }]
            initDB)).store).outcome =
        .responded { status := 200, body := .token "token-of-alice" }) := by
  decide

/-- C6 as amended: on a store that obeys the keys of the schema, for a request whose
token verifies with the id of a stored user, whenever ChangeUsername answers
`Username updated` the new name is a string `name`, the store it leaves holds a user
with the requester's id, every such user has the username `toLowerCase name`, Login
with `name` and any password that verifies against that user's hash returns the token
of that user, and the lookup Login does for a name whose lower-case form differs from
`toLowerCase name` does not return a user with the requester's id. -/
theorem changeUsername_success_then_login (L : Lib) (clock : Nat) (header token : String)
    (decoded : Claims) (username : JsValue) (s : Store) (hwf : s.WF)
    (htoken : bearerToken header = some token)
    (hverify : L.jwtVerify token clock = some decoded)
    (hstored : ∃ u ∈ s.users, u.id = decoded.id)
    (hsucc : (changeUsername L clock (some header) username s).outcome =
      .responded { status := 200, body := .message "Username updated" }) :
    ∃ name, username = .str name ∧
      (∃ u ∈ (changeUsername L clock (some header) username s).store.users,
        u.id = decoded.id) ∧
      (∀ u ∈ (changeUsername L clock (some header) username s).store.users,
        u.id = decoded.id →
          u.username = L.toLowerCase name ∧
          ∀ (clock2 : Nat) (p : String), L.bcryptCompare p u.password = true →
            (login L clock2 { username := .str name, password := .str p }
                (changeUsername L clock (some header) username s).store).outcome =
              .responded
                { status := 200,
                  body := .token
                    (L.jwtSign { id := u.id, username := u.username, role := u.role }
                      7200 clock2) }) ∧
      (∀ old : String, L.toLowerCase old ≠ L.toLowerCase name →
        ∀ v, getUserByUsername (changeUsername L clock (some header) username s).store
            (L.toLowerCase old) = some v → v.id ≠ decoded.id) := by
  have hauth : auth L clock (some header) = .ok decoded :=
    (auth_ok_iff L clock (some header) decoded).2 ⟨header, token, rfl, htoken, hverify⟩
  obtain ⟨decoded2, name, s1, hauth2, hname, -, hupd, hstore⟩ :=
    changeUsername_success L clock (some header) username s hsucc
  have hdec : decoded2 = decoded := by
    rw [hauth] at hauth2
    exact (Except.ok.inj hauth2).symm
  subst hdec
  have hs1 := updateUsername_eq_some s s1 _ _ hupd
  have hother := updateUsername_others s s1 _ _ hupd hstored
  have hall : ∀ u ∈ s1.users, u.id = decoded2.id →
      getUserByUsername s1 (L.toLowerCase name) = some u ∧ u.username = L.toLowerCase name := by
    intro u hu hid
    rw [hs1] at hu ⊢
    exact find_renamed s.users (L.toLowerCase name) decoded2.id u hwf.1 hother hu hid
  rw [hstore]
  refine ⟨name, hname, ?_, ?_, ?_⟩
  · obtain ⟨u0, hu0, hid0⟩ := hstored
    refine ⟨{ u0 with username := L.toLowerCase name }, ?_, hid0⟩
    rw [hs1]
    simp only [List.mem_map]
    exact ⟨u0, hu0, by simp [hid0]⟩
  · intro u hu hid
    refine ⟨(hall u hu hid).2, ?_⟩
    intro clock2 p hp
    simp [login, (hall u hu hid).1, hp]
  · intro old hne v hv hvid
    obtain ⟨hvmem, hvname⟩ := getUserByUsername_eq_some s1 _ v hv
    exact hne (hvname.symm.trans (hall v hvmem hvid).2)

/-- Witness of C6 as amended: in the sample store `alice` renames herself. -/
theorem changeUsername_success_then_login_witness :
    (sampleStore.WF ∧ bearerToken "Bearer alice.token" = some "alice.token" ∧
      testLib.jwtVerify "alice.token" 0 = some { id := 2, username := "alice", role := "user" } ∧
      (∃ u ∈ sampleStore.users, u.id = 2) ∧
      (changeUsername testLib 0 (some "Bearer alice.token") (.str "ValidName123")
          sampleStore).outcome =
        .responded { status := 200, body := .message "Username updated" }) ∧
    ∃ name, JsValue.str "ValidName123" = .str name ∧
      ∃ u ∈ (changeUsername testLib 0 (some "Bearer alice.token") (.str "ValidName123")
          sampleStore).store.users,
        u.id = 2 :=
  ⟨⟨by decide, by decide, by decide, by decide, by decide⟩,
    match changeUsername_success_then_login testLib 0 "Bearer alice.token" "alice.token"
        { id := 2, username := "alice", role := "user" } (.str "ValidName123") sampleStore
        (by decide) (by decide) (by decide) (by decide) (by decide) with
    | ⟨name, h1, h2, _⟩ => ⟨name, h1, h2⟩⟩

end ChatSite
